import Mathlib

/-!
Shallow embedding of the CP2110/CP2114 HID-to-UART driver core
(`src/lib.rs` of the `cp211x_uart` crate), together with theorems about
its framing, buffering, codec and timeout behaviour.

Bytes are modelled as `Nat` (every byte produced by the code stays below
256; where Rust truncates with an `as u8` cast the guarded paths keep the
value below the cast range, as noted at each definition).  Fixed 64-byte
reports are modelled as `List Nat`.  The hidapi transport collaborator is
modelled by explicit event traces; the wall clock is modelled by the
sequence of `Instant::elapsed` values observed at each check.
-/

/-! ## Wire constants (src/lib.rs lines 18-26) -/

def FEATURE_REPORT_LENGTH : Nat := 64
def INTERRUPT_REPORT_LENGTH : Nat := 64

def GETSET_UART_ENABLE : Nat := 0x41
def PURGE_FIFOS : Nat := 0x43
def GETSET_UART_CONFIG : Nat := 0x50

def PURGE_TRANSMIT_MASK : Nat := 0x01
def PURGE_RECEIVE_MASK : Nat := 0x02

/-! ## UART configuration data model (src/lib.rs lines 29-118) -/

/-- `enum DataBits` -/
inductive DataBits
  | bits5
  | bits6
  | bits7
  | bits8
deriving DecidableEq

/-- `enum Parity` -/
inductive Parity
  | none
  | odd
  | even
  | mark
  | space
deriving DecidableEq

/-- `enum StopBits` -/
inductive StopBits
  | short
  | long
deriving DecidableEq

/-- `enum FlowControl` -/
inductive FlowControl
  | none
  | rtsCts
deriving DecidableEq

/-- `struct UartConfig`.  `baud_rate` is `u32` in the source; it is
modelled as a `Nat`, with validity (`baud_rate < 2^32`) a hypothesis where
it matters. -/
structure UartConfig where
  baud_rate : Nat
  data_bits : DataBits
  parity : Parity
  stop_bits : StopBits
  flow_control : FlowControl
deriving DecidableEq

/-- `impl Default for UartConfig` (src/lib.rs lines 108-118). -/
def UartConfig.default : UartConfig :=
  { baud_rate := 9600
    data_bits := DataBits.bits8
    parity := Parity.none
    stop_bits := StopBits.short
    flow_control := FlowControl.none }

/-! ## Report codec

The control-report encode/decode logic of `set_config`, `get_config`,
`set_uart_enable`, `is_enabled` and `flush_fifos`, separated from the
transport calls they are interleaved with in the source. -/

/-- The `match config.parity` table of `set_config` (src/lib.rs 208-214). -/
def parity_code : Parity → Nat
  | Parity.none => 0x00
  | Parity.odd => 0x01
  | Parity.even => 0x02
  | Parity.mark => 0x03
  | Parity.space => 0x04

/-- The `match config.flow_control` table of `set_config` (src/lib.rs 215-218). -/
def flow_control_code : FlowControl → Nat
  | FlowControl.none => 0x00
  | FlowControl.rtsCts => 0x01

/-- The `match config.data_bits` table of `set_config` (src/lib.rs 219-224). -/
def data_bits_code : DataBits → Nat
  | DataBits.bits5 => 0x00
  | DataBits.bits6 => 0x01
  | DataBits.bits7 => 0x02
  | DataBits.bits8 => 0x03

/-- The `match config.stop_bits` table of `set_config` (src/lib.rs 225-228). -/
def stop_bits_code : StopBits → Nat
  | StopBits.short => 0x00
  | StopBits.long => 0x01

/-- The feature report built by `set_config` (src/lib.rs 200-229):
byte 0 the command code, bytes 1-4 the baud rate big-endian, bytes 5-8
the four enum codes, the remaining 55 bytes zero. -/
def encode_config (config : UartConfig) : List Nat :=
  GETSET_UART_CONFIG ::
  ((config.baud_rate >>> 24) &&& 0xFF) ::
  ((config.baud_rate >>> 16) &&& 0xFF) ::
  ((config.baud_rate >>> 8) &&& 0xFF) ::
  (config.baud_rate &&& 0xFF) ::
  parity_code config.parity ::
  flow_control_code config.flow_control ::
  data_bits_code config.data_bits ::
  stop_bits_code config.stop_bits ::
  List.replicate 55 0

deriving instance DecidableEq for Except

/-- The `match buf[5]` decoder of `get_config` (src/lib.rs 245-252). -/
def decode_parity : Nat → Except String Parity
  | 0x00 => Except.ok Parity.none
  | 0x01 => Except.ok Parity.odd
  | 0x02 => Except.ok Parity.even
  | 0x03 => Except.ok Parity.mark
  | 0x04 => Except.ok Parity.space
  | _ => Except.error "Unknown parity mode"

/-- The `match buf[6]` decoder of `get_config` (src/lib.rs 253-257). -/
def decode_flow_control : Nat → Except String FlowControl
  | 0x00 => Except.ok FlowControl.none
  | 0x01 => Except.ok FlowControl.rtsCts
  | _ => Except.error "Unknown flow control mode"

/-- The `match buf[7]` decoder of `get_config` (src/lib.rs 258-264). -/
def decode_data_bits : Nat → Except String DataBits
  | 0x00 => Except.ok DataBits.bits5
  | 0x01 => Except.ok DataBits.bits6
  | 0x02 => Except.ok DataBits.bits7
  | 0x03 => Except.ok DataBits.bits8
  | _ => Except.error "Unknown data bits mode"

/-- The `match buf[8]` decoder of `get_config` (src/lib.rs 265-269). -/
def decode_stop_bits : Nat → Except String StopBits
  | 0x00 => Except.ok StopBits.short
  | 0x01 => Except.ok StopBits.long
  | _ => Except.error "Unknown stop bits mode"

/-- The decoding half of `get_config` (src/lib.rs 241-278): the baud rate
from bytes 1-4 big-endian, then the four enum decoders chained with `?`
(the first failure aborts the whole decode). -/
def decode_config (buf : List Nat) : Except String UartConfig :=
  let baud_rate : Nat :=
    (buf.getD 1 0) <<< 24 ||| (buf.getD 2 0) <<< 16 |||
    (buf.getD 3 0) <<< 8 ||| buf.getD 4 0
  match decode_parity (buf.getD 5 0) with
  | Except.error e => Except.error e
  | Except.ok parity =>
  match decode_flow_control (buf.getD 6 0) with
  | Except.error e => Except.error e
  | Except.ok flow_control =>
  match decode_data_bits (buf.getD 7 0) with
  | Except.error e => Except.error e
  | Except.ok data_bits =>
  match decode_stop_bits (buf.getD 8 0) with
  | Except.error e => Except.error e
  | Except.ok stop_bits =>
    Except.ok
      { baud_rate := baud_rate
        parity := parity
        flow_control := flow_control
        data_bits := data_bits
        stop_bits := stop_bits }

/-- The feature report built by `set_uart_enable` (src/lib.rs 128-139):
byte 0 the command code, byte 1 `0x01` to enable and `0x00` to disable,
the rest zero. -/
def encode_enable (enable : Bool) : List Nat :=
  GETSET_UART_ENABLE :: (if enable then 0x01 else 0x00) :: List.replicate 62 0

/-- The decoding half of `is_enabled` (src/lib.rs 192-196): byte 1 equal
to `0x00` means disabled, anything else means enabled. -/
def decode_enable (buf : List Nat) : Bool :=
  if buf.getD 1 0 = 0x00 then false else true

/-- The feature report built by `flush_fifos` (src/lib.rs 287-298):
byte 0 the purge command code; byte 1 starts at zero and has the receive
mask or-ed in when `rx` and the transmit mask or-ed in when `tx`. -/
def encode_purge (rx tx : Bool) : List Nat :=
  PURGE_FIFOS ::
  ((0 ||| (if rx then PURGE_RECEIVE_MASK else 0)) |||
    (if tx then PURGE_TRANSMIT_MASK else 0)) ::
  List.replicate 62 0

/-! ## The leftover receive buffer `RxBuffer` (src/lib.rs 365-414)

The three operations mirror the source.  Rust slice indexing panics when
a range bound exceeds the slice length; every such indexing is modelled
by an explicit bound check returning `none` (= panic) when it fails.
`start` and `len` are `u8` in the source; they are modelled as `Nat`
(in every non-panicking path they stay at or below the capacity 64, so
the `as u8` casts in the source are exact). -/

structure RxBuffer where
  start : Nat
  len : Nat
  data : List Nat
deriving DecidableEq

/-- `RxBuffer::new` (src/lib.rs 372-378). -/
def RxBuffer.new : RxBuffer :=
  { start := 0, len := 0, data := List.replicate 64 0 }

/-- `RxBuffer::read` (src/lib.rs 380-398), the spec's `drain`.  `destLen`
is the length of the destination slice; the returned list holds the bytes
copied into its front.  `none` models the panic of
`&self.data[start..end]` when `end` exceeds the data length. -/
def RxBuffer.read (b : RxBuffer) (destLen : Nat) : Option (List Nat × RxBuffer) :=
  if b.len = 0 then
    some ([], b)
  else
    let num_bytes_read := min destLen b.len
    if b.start + num_bytes_read ≤ b.data.length then
      some ((b.data.drop b.start).take num_bytes_read,
        if b.len - num_bytes_read = 0 then
          { b with len := 0, start := 0 }
        else
          { b with len := b.len - num_bytes_read,
                   start := b.start + num_bytes_read })
    else
      none

/-- `RxBuffer::write` (src/lib.rs 400-408), the spec's `fill`.  `none`
models the panic of `self.data[0..source.len()].copy_from_slice` when
`source.len()` exceeds the data length. -/
def RxBuffer.write (b : RxBuffer) (source : List Nat) : Option RxBuffer :=
  if source.length = 0 then
    some b
  else if source.length ≤ b.data.length then
    some { start := 0,
           len := source.length,
           data := source ++ b.data.drop source.length }
  else
    none

/-- `RxBuffer::clear` (src/lib.rs 410-413). -/
def RxBuffer.clear (b : RxBuffer) : RxBuffer :=
  { b with start := 0, len := 0 }

/-- Well-formedness of a buffer state: the spec's leftover invariant
plus the fixed 64-byte capacity of the backing array. -/
def RxBuffer.Wf (b : RxBuffer) : Prop :=
  b.start + b.len ≤ 64 ∧ b.data.length = 64

instance (b : RxBuffer) : Decidable b.Wf := by
  unfold RxBuffer.Wf; infer_instance

/-- The buffer states reachable from `RxBuffer::new` by `drain`/`fill`
sequences that respect the fill-only-when-empty calling discipline and
the `source.len() <= capacity` contract. -/
inductive RxReach : RxBuffer → Prop
  | init : RxReach RxBuffer.new
  | drain (b b' : RxBuffer) (destLen : Nat) (out : List Nat) :
      RxReach b → b.read destLen = some (out, b') → RxReach b'
  | fill (b b' : RxBuffer) (source : List Nat) :
      RxReach b → b.len = 0 → source.length ≤ 64 →
      b.write source = some b' → RxReach b'

/-! ## The write path (src/lib.rs 305-320)

`HidUart::write` splits `data` into chunks of at most
`INTERRUPT_REPORT_LENGTH - 1 = 63` bytes, sends one interrupt report per
chunk, and after each send compares `start_time.elapsed()` with the
write timeout.  The clock is modelled by `elapsed : Nat → Nat`, where
`elapsed i` is the value observed by the check following the send of
chunk `i`; the transport `handle.write` is the always-succeeding mock of
the spec's timeout scenario. -/

/-- `data.chunks(INTERRUPT_REPORT_LENGTH - 1)`: consecutive chunks of 63
bytes, the last one possibly shorter, none empty. -/
def chunksList : List Nat → List (List Nat)
  | [] => []
  | a :: l => (a :: l.take 62) :: chunksList (l.drop 62)
termination_by l => l.length
decreasing_by simp; omega

/-- One interrupt report of the write loop (src/lib.rs 310-312): byte 0
the chunk length, then the chunk bytes, zero-padded to 64 bytes.  The
`chunk.len() as u8` cast is exact because chunks hold at most 63 bytes. -/
def mkFrame (chunk : List Nat) : List Nat :=
  chunk.length :: (chunk ++ List.replicate (63 - chunk.length) 0)

inductive WriteOutcome
  | ok
  | writeTimeout
deriving DecidableEq

/-- The `for chunk in data.chunks(..)` loop of `HidUart::write`
(src/lib.rs 309-317): sends the frame of each chunk, then checks the
clock; a check that finds the deadline exceeded aborts with
`WriteTimeout`.  Returns the frames actually handed to the transport and
the outcome.  `i` counts the chunks already sent. -/
def writeChunks (wt : Nat) (elapsed : Nat → Nat) : Nat → List (List Nat) →
    List (List Nat) × WriteOutcome
  | _, [] => ([], WriteOutcome.ok)
  | i, c :: cs =>
    if elapsed i > wt then
      ([mkFrame c], WriteOutcome.writeTimeout)
    else
      let r := writeChunks wt elapsed (i + 1) cs
      (mkFrame c :: r.1, r.2)

/-- `HidUart::write` (src/lib.rs 305-320). -/
def HidUart.write (wt : Nat) (elapsed : Nat → Nat) (data : List Nat) :
    List (List Nat) × WriteOutcome :=
  writeChunks wt elapsed 0 (chunksList data)

/-! ## The read path (src/lib.rs 323-362)

`HidUart::read` first drains the leftover buffer into `data`, then loops:
while the destination has free space, it attempts one
`handle.read_timeout(&mut buf, 1)` fetch and afterwards compares
`start_time.elapsed()` with the read timeout.  The transport and the
clock are modelled by a trace of fetch events consumed in order; each
event carries the `elapsed` value the loop observes at the check that
follows it.  An exhausted trace is modelled like a deadline (the loop
stops and returns what it has).  `none` models a panic (out-of-bounds
slice indexing). -/

inductive FetchEvent
  /-- `read_timeout` returned 0 bytes; `t` is `elapsed` at the following
  check. -/
  | nothing (t : Nat)
  /-- `read_timeout` filled `buf` (a 64-byte report); `t` is `elapsed` at
  the following check. -/
  | frame (buf : List Nat) (t : Nat)
  /-- `read_timeout` returned a transport error. -/
  | fail
deriving DecidableEq

/-- Well-formedness of one fetch event: a delivered report is a full
64-byte buffer whose length byte does not exceed 63 =
`INTERRUPT_REPORT_LENGTH - 1`. -/
def FetchEvent.wf : FetchEvent → Bool
  | FetchEvent.frame buf _ => decide (buf.length = 64 ∧ buf.headD 0 ≤ 63)
  | _ => true

inductive ReadResult
  /-- `Ok(num_bytes_read)`: `collected` is the destination content (its
  length the returned count), `rxb` the leftover buffer afterwards, and
  `remaining` the trace the loop never consumed. -/
  | ok (collected : List Nat) (rxb : RxBuffer) (remaining : List FetchEvent)
  /-- The `?` on `handle.read_timeout` propagated a transport error. -/
  | transportFail
deriving DecidableEq

/-- The `loop` of `HidUart::read` (src/lib.rs 330-359).  `collected`
holds the bytes already placed in `data` (so `num_bytes_read =
collected.length`). -/
def HidUart.readLoop (rt destLen : Nat) (collected : List Nat)
    (rxb : RxBuffer) (events : List FetchEvent) : Option ReadResult :=
  if destLen - collected.length = 0 then
    some (ReadResult.ok collected rxb events)
  else
    match events with
    | [] => some (ReadResult.ok collected rxb [])
    | FetchEvent.fail :: _ => some ReadResult.transportFail
    | FetchEvent.nothing t :: rest =>
      if t > rt then
        some (ReadResult.ok collected rxb rest)
      else
        HidUart.readLoop rt destLen collected rxb rest
    | FetchEvent.frame buf t :: rest =>
      match buf with
      | [] => none
      | b0 :: payload =>
        let data_free := destLen - collected.length
        let copy_len := min b0 data_free
        if copy_len ≤ payload.length then
          let collected' := collected ++ payload.take copy_len
          if copy_len < b0 then
            if b0 ≤ payload.length then
              match rxb.write ((payload.drop copy_len).take (b0 - copy_len)) with
              | some rxb' => some (ReadResult.ok collected' rxb' rest)
              | none => none
            else
              none
          else
            if t > rt then
              some (ReadResult.ok collected' rxb rest)
            else
              HidUart.readLoop rt destLen collected' rxb rest
        else
          none

/-- `HidUart::read` (src/lib.rs 323-362): drain the leftover buffer, then
run the fetch loop. -/
def HidUart.read (rt destLen : Nat) (rxb : RxBuffer)
    (events : List FetchEvent) : Option ReadResult :=
  match rxb.read destLen with
  | none => none
  | some (drained, rxb') => HidUart.readLoop rt destLen drained rxb' events

/-- `HidUart::flush_fifos` (src/lib.rs 286-302): the feature report sent
and the leftover buffer afterwards (cleared exactly when `rx`). -/
def HidUart.flush_fifos (rxb : RxBuffer) (rx tx : Bool) :
    List Nat × RxBuffer :=
  (encode_purge rx tx, if rx then rxb.clear else rxb)

/-! ## Codec lemmas -/

theorem or_eq_add_of_mod_eq_zero (i a b : Nat) (ha : a % 2 ^ i = 0)
    (hb : b < 2 ^ i) : a ||| b = a + b := by
  obtain ⟨c, rfl⟩ := Nat.dvd_of_mod_eq_zero ha
  exact (Nat.mul_add_lt_is_or hb c).symm

/-- The four big-endian baud-rate bytes written by `set_config` decode to
the original value in `get_config`. -/
theorem baud_roundtrip (b : Nat) (hb : b < 2 ^ 32) :
    ((b >>> 24) &&& 0xFF) <<< 24 ||| ((b >>> 16) &&& 0xFF) <<< 16 |||
      ((b >>> 8) &&& 0xFF) <<< 8 ||| (b &&& 0xFF) = b := by
  have h255 : (0xFF : Nat) = 2 ^ 8 - 1 := rfl
  rw [h255, Nat.and_pow_two_sub_one_eq_mod, Nat.and_pow_two_sub_one_eq_mod,
    Nat.and_pow_two_sub_one_eq_mod, Nat.and_pow_two_sub_one_eq_mod,
    Nat.shiftRight_eq_div_pow, Nat.shiftRight_eq_div_pow,
    Nat.shiftRight_eq_div_pow, Nat.shiftLeft_eq, Nat.shiftLeft_eq,
    Nat.shiftLeft_eq]
  have p8 : (0:Nat) < 2 ^ 8 := Nat.two_pow_pos 8
  have m16 : b / 2 ^ 16 % 2 ^ 8 < 2 ^ 8 := Nat.mod_lt _ p8
  have m8 : b / 2 ^ 8 % 2 ^ 8 < 2 ^ 8 := Nat.mod_lt _ p8
  rw [or_eq_add_of_mod_eq_zero 24 _ _ (Nat.mul_mod_left _ _)
      (lt_of_lt_of_eq ((Nat.mul_lt_mul_right (Nat.two_pow_pos 16)).mpr m16)
        (by norm_num))]
  rw [or_eq_add_of_mod_eq_zero 16 _ _ (by omega)
      (lt_of_lt_of_eq ((Nat.mul_lt_mul_right (Nat.two_pow_pos 8)).mpr m8)
        (by norm_num))]
  rw [or_eq_add_of_mod_eq_zero 8 _ _ (by omega) (Nat.mod_lt _ p8)]
  have e32 : (2:Nat) ^ 32 = 4294967296 := by norm_num
  have e24 : (2:Nat) ^ 24 = 16777216 := by norm_num
  have e16 : (2:Nat) ^ 16 = 65536 := by norm_num
  have e8 : (2:Nat) ^ 8 = 256 := by norm_num
  rw [e32] at hb
  rw [e24, e16, e8] at *
  omega

set_option maxHeartbeats 1600000 in
/-- C2: for every valid `UartConfig` (baud rate a `u32` value), decoding
the encoding returns the same config: each enum field round-trips through
its single-byte wire code and the baud rate through its 4 big-endian
bytes. -/
theorem claim_C2 (c : UartConfig) (hv : c.baud_rate < 2 ^ 32) :
    decode_config (encode_config c) = Except.ok c := by
  obtain ⟨b, db, p, sb, fc⟩ := c
  cases p <;> cases fc <;> cases db <;> cases sb <;>
    simp [encode_config, decode_config, parity_code, flow_control_code,
      data_bits_code, stop_bits_code, decode_parity, decode_flow_control,
      decode_data_bits, decode_stop_bits, baud_roundtrip b hv]

theorem claim_C2_witness :
    UartConfig.default.baud_rate < 2 ^ 32 ∧
      decode_config (encode_config UartConfig.default) =
        Except.ok UartConfig.default :=
  ⟨by decide, claim_C2 UartConfig.default (by decide)⟩

theorem decode_parity_ok_of_le (n : Nat) (h : n ≤ 4) :
    ∃ p, decode_parity n = Except.ok p := by
  interval_cases n <;> exact ⟨_, rfl⟩

theorem decode_parity_error_of_lt (n : Nat) (h : 4 < n) :
    decode_parity n = Except.error "Unknown parity mode" := by
  match n, h with
  | n + 5, _ => rfl

theorem decode_flow_control_ok_of_le (n : Nat) (h : n ≤ 1) :
    ∃ f, decode_flow_control n = Except.ok f := by
  interval_cases n <;> exact ⟨_, rfl⟩

theorem decode_flow_control_error_of_lt (n : Nat) (h : 1 < n) :
    decode_flow_control n = Except.error "Unknown flow control mode" := by
  match n, h with
  | n + 2, _ => rfl

theorem decode_data_bits_ok_of_le (n : Nat) (h : n ≤ 3) :
    ∃ d, decode_data_bits n = Except.ok d := by
  interval_cases n <;> exact ⟨_, rfl⟩

theorem decode_data_bits_error_of_lt (n : Nat) (h : 3 < n) :
    decode_data_bits n = Except.error "Unknown data bits mode" := by
  match n, h with
  | n + 4, _ => rfl

theorem decode_stop_bits_ok_of_le (n : Nat) (h : n ≤ 1) :
    ∃ s, decode_stop_bits n = Except.ok s := by
  interval_cases n <;> exact ⟨_, rfl⟩

theorem decode_stop_bits_error_of_lt (n : Nat) (h : 1 < n) :
    decode_stop_bits n = Except.error "Unknown stop bits mode" := by
  match n, h with
  | n + 2, _ => rfl

/-- C7: decoding a configuration report fails exactly when one of the
four code bytes is outside its known range: byte 5 (parity) above 4,
byte 6 (flow control) above 1, byte 7 (data bits) above 3, or byte 8
(stop bits) above 1. -/
theorem claim_C7 (buf : List Nat) :
    (∃ e, decode_config buf = Except.error e) ↔
      (4 < buf.getD 5 0 ∨ 1 < buf.getD 6 0 ∨
        3 < buf.getD 7 0 ∨ 1 < buf.getD 8 0) := by
  rcases Nat.lt_or_ge 4 (buf.getD 5 0) with h5 | h5
  · refine ⟨fun _ => Or.inl h5, fun _ => ⟨"Unknown parity mode", ?_⟩⟩
    simp only [decode_config, decode_parity_error_of_lt _ h5]
  · obtain ⟨p, hp⟩ := decode_parity_ok_of_le _ h5
    rcases Nat.lt_or_ge 1 (buf.getD 6 0) with h6 | h6
    · refine ⟨fun _ => Or.inr (Or.inl h6),
        fun _ => ⟨"Unknown flow control mode", ?_⟩⟩
      simp only [decode_config, hp, decode_flow_control_error_of_lt _ h6]
    · obtain ⟨f, hf⟩ := decode_flow_control_ok_of_le _ h6
      rcases Nat.lt_or_ge 3 (buf.getD 7 0) with h7 | h7
      · refine ⟨fun _ => Or.inr (Or.inr (Or.inl h7)),
          fun _ => ⟨"Unknown data bits mode", ?_⟩⟩
        simp only [decode_config, hp, hf, decode_data_bits_error_of_lt _ h7]
      · obtain ⟨d, hd⟩ := decode_data_bits_ok_of_le _ h7
        rcases Nat.lt_or_ge 1 (buf.getD 8 0) with h8 | h8
        · refine ⟨fun _ => Or.inr (Or.inr (Or.inr h8)),
            fun _ => ⟨"Unknown stop bits mode", ?_⟩⟩
          simp only [decode_config, hp, hf, hd,
            decode_stop_bits_error_of_lt _ h8]
        · obtain ⟨s, hs⟩ := decode_stop_bits_ok_of_le _ h8
          constructor
          · rintro ⟨e, he⟩
            simp only [decode_config, hp, hf, hd, hs] at he
            simp at he
          · intro h
            omega

/-- C10: `is_enabled` treats any nonzero value of byte 1 as enabled and
zero as disabled; in particular the encoding of `true` decodes to `true`
and a report with byte 1 equal to `0x02` also decodes as enabled. -/
theorem claim_C10 :
    (∀ buf : List Nat, decode_enable buf = true ↔ buf.getD 1 0 ≠ 0) ∧
    decode_enable (encode_enable true) = true ∧
    decode_enable (GETSET_UART_ENABLE :: 0x02 :: List.replicate 62 0) = true := by
  refine ⟨fun buf => ?_, rfl, rfl⟩
  by_cases h : buf.getD 1 0 = 0 <;> simp [decode_enable, h]

/-- C9: `flush_fifos` with `rx = true` clears the leftover buffer — a
subsequent read against a transport that delivers no frames returns 0
bytes — and the purge report has byte 0 equal to the purge command code
`0x43` and byte 1 the bitwise OR of the receive mask `0x02` (set iff
`rx`) and the transmit mask `0x01` (set iff `tx`). -/
theorem claim_C9 (rxb : RxBuffer) (rx tx : Bool) (rt destLen : Nat) :
    (encode_purge rx tx).getD 0 0 = PURGE_FIFOS ∧
    (encode_purge rx tx).getD 1 0 =
      ((if rx then PURGE_RECEIVE_MASK else 0) |||
        (if tx then PURGE_TRANSMIT_MASK else 0)) ∧
    (HidUart.flush_fifos rxb true tx).2.len = 0 ∧
    HidUart.read rt destLen (HidUart.flush_fifos rxb true tx).2 [] =
      some (ReadResult.ok [] (HidUart.flush_fifos rxb true tx).2 []) := by
  refine ⟨rfl, by simp [encode_purge], rfl, ?_⟩
  simp only [HidUart.flush_fifos, HidUart.read, RxBuffer.clear, RxBuffer.read]
  simp [HidUart.readLoop]

/-! ## Leftover buffer lemmas -/

/-- `RxBuffer::read` never moves `start + len` up and never touches the
backing array. -/
theorem RxBuffer.read_inv (b : RxBuffer) (destLen : Nat) (out : List Nat)
    (b' : RxBuffer) (h : b.read destLen = some (out, b')) :
    b'.start + b'.len ≤ b.start + b.len ∧ b'.data = b.data := by
  unfold RxBuffer.read at h
  split at h
  · simp only [Option.some.injEq, Prod.mk.injEq] at h
    obtain ⟨h1, h2⟩ := h
    subst h2
    exact ⟨Nat.le_refl _, rfl⟩
  · simp only [] at h
    split at h
    · simp only [Option.some.injEq, Prod.mk.injEq] at h
      obtain ⟨h1, h2⟩ := h
      subst h2
      split
      · simp
      · simp
        omega
    · exact absurd h (by simp)

/-- C5: every buffer reachable from `RxBuffer::new` by `drain`/`fill`
sequences respecting the fill-only-when-empty and source-fits contract
satisfies `start + len <= capacity`, and a buffer with `len = 0` is
logically empty: draining it yields no bytes and leaves it unchanged,
whatever `start` is. -/
theorem claim_C5 (b : RxBuffer) (h : RxReach b) :
    b.start + b.len ≤ 64 ∧
      (b.len = 0 → ∀ destLen, b.read destLen = some ([], b)) := by
  refine ⟨?_, fun h0 destLen => by simp [RxBuffer.read, h0]⟩
  induction h with
  | init => simp [RxBuffer.new]
  | drain b b' destLen out hb hread ih =>
      have := RxBuffer.read_inv b destLen out b' hread
      omega
  | fill b b' source hb hempty hsource hwrite =>
      unfold RxBuffer.write at hwrite
      split at hwrite
      · simp only [Option.some.injEq] at hwrite
        subst hwrite
        omega
      · split at hwrite
        · simp only [Option.some.injEq] at hwrite
          subst hwrite
          simpa using hsource
        · exact absurd hwrite (by simp)

theorem claim_C5_witness :
    RxBuffer.new.start + RxBuffer.new.len ≤ 64 ∧
      RxBuffer.new.read 16 = some ([], RxBuffer.new) :=
  ⟨(claim_C5 RxBuffer.new RxReach.init).1,
   (claim_C5 RxBuffer.new RxReach.init).2 rfl 16⟩

/-! ## Write-path lemmas -/

theorem writeChunks_ok_iff (wt : Nat) (elapsed : Nat → Nat) :
    ∀ (cs : List (List Nat)) (i : Nat),
      (writeChunks wt elapsed i cs).2 = WriteOutcome.ok ↔
        ∀ j, j < cs.length → elapsed (i + j) ≤ wt := by
  intro cs
  induction cs with
  | nil => intro i; simp [writeChunks]
  | cons c cs ih =>
    intro i
    simp only [writeChunks]
    by_cases h : elapsed i > wt
    · simp only [h, if_true]
      constructor
      · intro hcon; exact absurd hcon (by simp)
      · intro hall
        have h0 : elapsed i ≤ wt := by simpa using hall 0 (by simp)
        omega
    · simp only [h, if_false]
      rw [ih (i + 1)]
      constructor
      · intro hall j hj
        cases j with
        | zero => simpa using Nat.not_lt.mp h
        | succ j =>
          have : i + (j + 1) = i + 1 + j := by omega
          rw [this]
          exact hall j (by simpa using hj)
      · intro hall j hj
        have : i + 1 + j = i + (j + 1) := by omega
        rw [this]
        exact hall (j + 1) (by simpa using hj)

theorem writeChunks_timeout (wt : Nat) (elapsed : Nat → Nat) :
    ∀ (cs : List (List Nat)) (i : Nat),
      (writeChunks wt elapsed i cs).2 = WriteOutcome.writeTimeout →
        ∃ j, j < cs.length ∧ wt < elapsed (i + j) ∧
          (∀ j', j' < j → elapsed (i + j') ≤ wt) ∧
          (writeChunks wt elapsed i cs).1 = (cs.take (j + 1)).map mkFrame := by
  intro cs
  induction cs with
  | nil => intro i h; exact absurd h (by simp [writeChunks])
  | cons c cs ih =>
    intro i h
    simp only [writeChunks] at h ⊢
    by_cases he : elapsed i > wt
    · refine ⟨0, by simp, by simpa using he,
        fun j' hj' => absurd hj' (by omega), ?_⟩
      simp [he]
    · simp only [he, if_false] at h ⊢
      obtain ⟨j, hj, hgt, hle, hframes⟩ := ih (i + 1) h
      refine ⟨j + 1, by simpa using hj, ?_, ?_, ?_⟩
      · have : i + (j + 1) = i + 1 + j := by omega
        rw [this]; exact hgt
      · intro j' hj'
        cases j' with
        | zero => simpa using Nat.not_lt.mp he
        | succ j' =>
          have : i + (j' + 1) = i + 1 + j' := by omega
          rw [this]
          exact hle j' (by omega)
      · simp [List.take_succ_cons, hframes]

theorem chunksList_flatten : ∀ l : List Nat, (chunksList l).flatten = l := by
  intro l
  induction l using chunksList.induct with
  | case1 => simp [chunksList]
  | case2 a l ih =>
    simp [chunksList, ih]

theorem chunksList_spec : ∀ (k : Nat) (l : List Nat) (r : Nat),
    l.length = k * 63 + r → 0 < r → r < 63 →
      (chunksList l).length = k + 1 ∧
      (∃ lc, (chunksList l).getLast? = some lc ∧ lc.length = r) ∧
      ∀ c ∈ chunksList l, 0 < c.length ∧ c.length ≤ 63 := by
  intro k
  induction k with
  | zero =>
    intro l r hlen hr0 hr63
    cases l with
    | nil =>
      simp at hlen
      omega
    | cons a l' =>
      have hl' : l'.length + 1 = r := by simpa using hlen
      have ht : l'.take 62 = l' := List.take_of_length_le (by omega)
      have hd : l'.drop 62 = [] := List.drop_of_length_le (by omega)
      simp only [chunksList, ht, hd]
      refine ⟨by simp, ⟨a :: l', by simp, by simpa using hl'⟩, ?_⟩
      intro c hc
      simp at hc
      subst hc
      simp
      omega
  | succ k ih =>
    intro l r hlen hr0 hr63
    cases l with
    | nil =>
      simp at hlen
      omega
    | cons a l' =>
      have hl' : l'.length = k * 63 + r + 62 := by
        simp at hlen
        omega
      have hdlen : (l'.drop 62).length = k * 63 + r := by simp [hl']
      obtain ⟨ihl, ⟨lc, hlast, hlclen⟩, ihmem⟩ :=
        ih (l'.drop 62) r hdlen hr0 hr63
      have hne : chunksList (l'.drop 62) ≠ [] := by
        intro hnil
        rw [hnil] at ihl
        simp at ihl
      simp only [chunksList]
      refine ⟨by simpa using ihl, ⟨lc, ?_, hlclen⟩, ?_⟩
      · cases hcs : chunksList (l'.drop 62) with
        | nil => exact absurd hcs hne
        | cons c0 cs =>
          rw [hcs] at hlast
          rw [List.getLast?_cons_cons]
          exact hlast
      · intro c hc
        simp only [List.mem_cons] at hc
        rcases hc with rfl | hc
        · exact ⟨by simp, by simp⟩
        · exact ihmem c hc

theorem writeChunks_all_ok (wt : Nat) (elapsed : Nat → Nat)
    (hall : ∀ i, elapsed i ≤ wt) :
    ∀ (cs : List (List Nat)) (i : Nat),
      writeChunks wt elapsed i cs = (cs.map mkFrame, WriteOutcome.ok) := by
  intro cs
  induction cs with
  | nil => intro i; simp [writeChunks]
  | cons c cs ih =>
    intro i
    simp [writeChunks, Nat.not_lt.mpr (hall i), ih (i + 1)]

/-- C6: writing `k*(N-1) + r` bytes (`N = 64`, `0 < r < N-1`) with no
timeout produces exactly `k+1` frames; every frame has byte 0 equal to
its chunk length (each chunk nonempty and at most 63 bytes, so the `u8`
cast is exact), bytes `1..len+1` the chunk bytes with the remainder
zero-padded to 64 bytes, the chunks concatenate back to the written
data, and the last frame's length byte equals `r`. -/
theorem claim_C6 (wt : Nat) (elapsed : Nat → Nat) (data : List Nat)
    (k r : Nat) (hlen : data.length = k * 63 + r) (hr0 : 0 < r)
    (hr63 : r < 63) (hall : ∀ i, elapsed i ≤ wt) :
    (HidUart.write wt elapsed data).2 = WriteOutcome.ok ∧
    (HidUart.write wt elapsed data).1 = (chunksList data).map mkFrame ∧
    (HidUart.write wt elapsed data).1.length = k + 1 ∧
    (∃ lastFrame,
      (HidUart.write wt elapsed data).1.getLast? = some lastFrame ∧
      lastFrame.headD 0 = r) ∧
    (chunksList data).flatten = data ∧
    (∀ c ∈ chunksList data,
      c.length ≤ 63 ∧
      mkFrame c = c.length :: (c ++ List.replicate (63 - c.length) 0) ∧
      (mkFrame c).length = 64) := by
  obtain ⟨hchl, ⟨lc, hlast, hlclen⟩, hmem⟩ :=
    chunksList_spec k data r hlen hr0 hr63
  have hw : HidUart.write wt elapsed data =
      ((chunksList data).map mkFrame, WriteOutcome.ok) :=
    writeChunks_all_ok wt elapsed hall (chunksList data) 0
  rw [hw]
  refine ⟨rfl, rfl, by simp [hchl], ⟨mkFrame lc, ?_, ?_⟩,
    chunksList_flatten data, ?_⟩
  · simp [List.getLast?_map, hlast]
  · simp [mkFrame, hlclen]
  · intro c hc
    obtain ⟨h0, h63⟩ := hmem c hc
    refine ⟨h63, rfl, ?_⟩
    simp [mkFrame]
    omega

theorem claim_C6_witness :
    (List.replicate 130 5).length = 2 * 63 + 4 ∧
    (HidUart.write 1000 (fun _ => 0) (List.replicate 130 5)).2 =
      WriteOutcome.ok ∧
    (HidUart.write 1000 (fun _ => 0) (List.replicate 130 5)).1.length = 3 := by
  have h := claim_C6 1000 (fun _ => 0) (List.replicate 130 5) 2 4
    (by simp) (by omega) (by omega) (fun i => Nat.zero_le 1000)
  exact ⟨by simp, h.1, h.2.2.1⟩

/-- C1 (amended): `write` succeeds exactly when every per-chunk deadline
check passes; a `WriteTimeout` error occurs only after at least one chunk
was sent, namely exactly the chunks up to and including the first one
whose check found the deadline exceeded — so no further chunks are sent
once the elapsed time exceeds the deadline — but the error can also fire
after ALL chunks were sent, when the deadline first passes at the check
following the final chunk. -/
theorem claim_C1 (wt : Nat) (elapsed : Nat → Nat) (data : List Nat) :
    ((HidUart.write wt elapsed data).2 = WriteOutcome.ok ↔
      ∀ j, j < (chunksList data).length → elapsed j ≤ wt) ∧
    ((HidUart.write wt elapsed data).2 = WriteOutcome.writeTimeout →
      ∃ j, j < (chunksList data).length ∧ wt < elapsed j ∧
        (∀ j', j' < j → elapsed j' ≤ wt) ∧
        (HidUart.write wt elapsed data).1 =
          ((chunksList data).take (j + 1)).map mkFrame ∧
        0 < (HidUart.write wt elapsed data).1.length) := by
  constructor
  · have h := writeChunks_ok_iff wt elapsed (chunksList data) 0
    simpa [HidUart.write] using h
  · intro ht
    obtain ⟨j, hj, hgt, hle, hframes⟩ :=
      writeChunks_timeout wt elapsed (chunksList data) 0 ht
    refine ⟨j, hj, by simpa using hgt, ?_, ?_, ?_⟩
    · intro j' hj'
      simpa using hle j' hj'
    · exact hframes
    · rw [show (HidUart.write wt elapsed data).1 =
        (writeChunks wt elapsed 0 (chunksList data)).1 from rfl, hframes]
      simp
      omega

/-- C1 counterexample: with a single chunk and the clock already past
the deadline after sending it, `write` returns `WriteTimeout` even
though every chunk was sent — refuting the claim that a `WriteTimeout`
occurs only before all chunks were sent. -/
theorem claim_C1_counterexample :
    (HidUart.write 0 (fun _ => 1) [42]).2 = WriteOutcome.writeTimeout ∧
    (HidUart.write 0 (fun _ => 1) [42]).1.length =
      (chunksList [42]).length := by
  constructor <;> simp [HidUart.write, chunksList, writeChunks]

theorem claim_C1_witness :
    (HidUart.write 0 (fun _ => 1) [42]).2 = WriteOutcome.writeTimeout ∧
    (∃ j, j < (chunksList [42]).length ∧ (0:Nat) < 1 ∧
      (∀ j', j' < j → (1:Nat) ≤ 0) ∧
      (HidUart.write 0 (fun _ => 1) [42]).1 =
        ((chunksList [42]).take (j + 1)).map mkFrame ∧
      0 < (HidUart.write 0 (fun _ => 1) [42]).1.length) := by
  have hto : (HidUart.write 0 (fun _ => 1) [42]).2 =
      WriteOutcome.writeTimeout := by
    simp [HidUart.write, chunksList, writeChunks]
  exact ⟨hto, by simpa using (claim_C1 0 (fun _ => 1) [42]).2 hto⟩

/-! ## Read-path lemmas -/

theorem RxBuffer.read_some (b : RxBuffer) (destLen : Nat) (hwf : b.Wf) :
    b.read destLen =
      if b.len = 0 then some ([], b)
      else
        some ((b.data.drop b.start).take (min destLen b.len),
          if b.len - min destLen b.len = 0 then
            { b with len := 0, start := 0 }
          else
            { b with len := b.len - min destLen b.len,
                     start := b.start + min destLen b.len }) := by
  unfold RxBuffer.read
  by_cases h0 : b.len = 0
  · simp [h0]
  · have hb : b.start + min destLen b.len ≤ b.data.length := by
      obtain ⟨h1, h2⟩ := hwf
      omega
    simp [h0, hb]

theorem RxBuffer.read_wf (b b' : RxBuffer) (destLen : Nat)
    (out : List Nat) (h : b.read destLen = some (out, b')) (hwf : b.Wf) :
    b'.Wf := by
  obtain ⟨h1, h2⟩ := RxBuffer.read_inv b destLen out b' h
  obtain ⟨hw1, hw2⟩ := hwf
  exact ⟨by omega, by rw [h2]; exact hw2⟩

theorem RxBuffer.write_some (b : RxBuffer) (source : List Nat)
    (hlen : source.length ≤ b.data.length) :
    b.write source =
      if source.length = 0 then some b
      else
        some { start := 0, len := source.length,
               data := source ++ b.data.drop source.length } := by
  unfold RxBuffer.write
  by_cases h0 : source.length = 0 <;> simp [h0, hlen]

/-- When the destination is already full the loop returns at once with
the trace untouched. -/
theorem readLoop_full (rt destLen : Nat) (collected : List Nat)
    (rxb : RxBuffer) (events : List FetchEvent)
    (hfull : destLen - collected.length = 0) :
    HidUart.readLoop rt destLen collected rxb events =
      some (ReadResult.ok collected rxb events) := by
  cases events with
  | nil => simp [HidUart.readLoop, hfull]
  | cons e rest => cases e <;> simp [HidUart.readLoop, hfull]

/-- The fetch loop neither panics nor invents errors: on a well-formed
buffer and trace it returns a result, and an `Ok` one when the trace has
no transport error. -/
theorem readLoop_total (rt destLen : Nat) (rxb : RxBuffer) (hwf : rxb.Wf) :
    ∀ (events : List FetchEvent) (collected : List Nat),
      (∀ e ∈ events, e.wf = true) →
      ∃ r, HidUart.readLoop rt destLen collected rxb events = some r ∧
        ((∀ e ∈ events, e ≠ FetchEvent.fail) →
          ∃ c b rem, r = ReadResult.ok c b rem) := by
  intro events
  induction events with
  | nil =>
    intro collected hwfev
    refine ⟨ReadResult.ok collected rxb [], ?_, fun _ => ⟨_, _, _, rfl⟩⟩
    by_cases hfull : destLen - collected.length = 0 <;>
      simp [HidUart.readLoop, hfull]
  | cons e rest ih =>
    intro collected hwfev
    by_cases hfull : destLen - collected.length = 0
    · exact ⟨ReadResult.ok collected rxb (e :: rest),
        readLoop_full rt destLen collected rxb (e :: rest) hfull,
        fun _ => ⟨_, _, _, rfl⟩⟩
    · cases e with
      | fail =>
        refine ⟨ReadResult.transportFail,
          by simp [HidUart.readLoop, hfull], fun hnf => ?_⟩
        exact absurd rfl (hnf FetchEvent.fail (by simp))
      | nothing t =>
        by_cases ht : t > rt
        · refine ⟨ReadResult.ok collected rxb rest, ?_,
            fun _ => ⟨_, _, _, rfl⟩⟩
          simp [HidUart.readLoop, hfull, ht]
        · obtain ⟨r, hr, hok⟩ :=
            ih collected (fun e he => hwfev e (by simp [he]))
          refine ⟨r, ?_, fun hnf => hok (fun e he => hnf e (by simp [he]))⟩
          simpa [HidUart.readLoop, hfull, ht] using hr
      | frame buf t =>
        have hbwf := hwfev (FetchEvent.frame buf t) (by simp)
        simp [FetchEvent.wf] at hbwf
        obtain ⟨hblen, hb0⟩ := hbwf
        cases buf with
        | nil => simp at hblen
        | cons b0 payload =>
          have hpl : payload.length = 63 := by simpa using hblen
          have hb0' : b0 ≤ 63 := by simpa using hb0
          have hcopy : min b0 (destLen - collected.length) ≤ payload.length := by
            omega
          have hble : b0 ≤ payload.length := by omega
          by_cases hover : min b0 (destLen - collected.length) < b0
          · have hsrc :
                ((payload.drop (min b0 (destLen - collected.length))).take
                  (b0 - min b0 (destLen - collected.length))).length ≤
                  rxb.data.length := by
              simp [hwf.2]
              omega
            cases hw : rxb.write
                ((payload.drop (min b0 (destLen - collected.length))).take
                  (b0 - min b0 (destLen - collected.length))) with
            | none =>
              rw [RxBuffer.write_some _ _ hsrc] at hw
              split at hw <;> simp at hw
            | some rxb' =>
              refine ⟨ReadResult.ok
                  (collected ++
                    payload.take (min b0 (destLen - collected.length)))
                  rxb' rest, ?_, fun _ => ⟨_, _, _, rfl⟩⟩
              simp [HidUart.readLoop, hfull, hcopy, hover, hble, hw]
          · by_cases ht : t > rt
            · refine ⟨ReadResult.ok
                  (collected ++
                    payload.take (min b0 (destLen - collected.length)))
                  rxb rest, ?_, fun _ => ⟨_, _, _, rfl⟩⟩
              simp [HidUart.readLoop, hfull, hcopy, hover, ht]
            · obtain ⟨r, hr, hok⟩ :=
                ih (collected ++
                    payload.take (min b0 (destLen - collected.length)))
                  (fun e he => hwfev e (by simp [he]))
              refine ⟨r, ?_, fun hnf => hok (fun e he => hnf e (by simp [he]))⟩
              simpa [HidUart.readLoop, hfull, hcopy, hover, ht] using hr

/-- `HidUart::read` never panics and never invents errors on a
well-formed buffer and trace. -/
theorem read_total (rt destLen : Nat) (rxb : RxBuffer)
    (events : List FetchEvent) (hwf : rxb.Wf)
    (hwfev : ∀ e ∈ events, e.wf = true) :
    ∃ r, HidUart.read rt destLen rxb events = some r ∧
      ((∀ e ∈ events, e ≠ FetchEvent.fail) →
        ∃ c b rem, r = ReadResult.ok c b rem) := by
  cases hr : rxb.read destLen with
  | none =>
    rw [RxBuffer.read_some rxb destLen hwf] at hr
    split at hr <;> simp at hr
  | some p =>
    obtain ⟨drained, rxb'⟩ := p
    have hwf' : rxb'.Wf := RxBuffer.read_wf rxb rxb' destLen drained hr hwf
    obtain ⟨r, hrl, hok⟩ := readLoop_total rt destLen rxb' hwf' events drained hwfev
    exact ⟨r, by simp [HidUart.read, hr, hrl], hok⟩

/-- C8: the read path never panics on valid input: for every fetched
data report that is a full 64-byte buffer with length byte at most
`N-1 = 63` (so every leftover `fill` source fits the 64-byte capacity),
and every well-formed leftover buffer, all slice indexing in
`HidUart::read` stays in bounds (the run returns a result instead of the
`none` that models a panic). -/
theorem claim_C8 (rt destLen : Nat) (rxb : RxBuffer)
    (events : List FetchEvent) (hwf : rxb.Wf)
    (hwfev : ∀ e ∈ events, e.wf = true) :
    (HidUart.read rt destLen rxb events).isSome = true := by
  obtain ⟨r, hr, _⟩ := read_total rt destLen rxb events hwf hwfev
  simp [hr]

theorem claim_C8_witness :
    RxBuffer.new.Wf ∧
    (∀ e ∈ [FetchEvent.frame (10 :: List.replicate 63 7) 0],
      e.wf = true) ∧
    (HidUart.read 5 4 RxBuffer.new
      [FetchEvent.frame (10 :: List.replicate 63 7) 0]).isSome = true :=
  ⟨by decide, by decide,
   claim_C8 5 4 RxBuffer.new [FetchEvent.frame (10 :: List.replicate 63 7) 0]
     (by decide) (by decide)⟩

/-- C4: `read` never returns a timeout error.  On a well-formed buffer
and trace with no transport-level error the call returns `Ok` with
whatever was collected; in particular, when the deadline elapses before
any frame arrives and nothing was buffered, the result is `Ok` with
count 0 — a success, not an error. -/
theorem claim_C4 (rt destLen : Nat) (rxb : RxBuffer)
    (events : List FetchEvent) (hwf : rxb.Wf)
    (hwfev : ∀ e ∈ events, e.wf = true)
    (hnf : ∀ e ∈ events, e ≠ FetchEvent.fail) :
    (∃ c b rem, HidUart.read rt destLen rxb events =
      some (ReadResult.ok c b rem)) ∧
    (rxb.len = 0 → 0 < destLen → ∀ t rest, rt < t →
      HidUart.read rt destLen rxb (FetchEvent.nothing t :: rest) =
        some (ReadResult.ok [] rxb rest)) := by
  constructor
  · obtain ⟨r, hr, hok⟩ := read_total rt destLen rxb events hwf hwfev
    obtain ⟨c, b, rem, rfl⟩ := hok hnf
    exact ⟨c, b, rem, hr⟩
  · intro h0 hd t rest hrt
    have hd' : destLen - ([] : List Nat).length ≠ 0 := by simpa using by omega
    simp [HidUart.read, RxBuffer.read, h0, HidUart.readLoop, hd', hrt]
    omega

theorem claim_C4_witness :
    (∃ c b rem, HidUart.read 0 4 RxBuffer.new [FetchEvent.nothing 5] =
      some (ReadResult.ok c b rem)) ∧
    HidUart.read 0 4 RxBuffer.new [FetchEvent.nothing 5] =
      some (ReadResult.ok [] RxBuffer.new []) := by
  have h := claim_C4 0 4 RxBuffer.new [FetchEvent.nothing 5]
    (by decide) (by decide) (by decide)
  exact ⟨h.1, h.2 rfl (by omega) 5 [] (by omega)⟩

/-- Whatever the loop returns extends the bytes it started with: the
drained leftover bytes stay at the front of the destination. -/
theorem readLoop_extends (rt destLen : Nat) :
    ∀ (events : List FetchEvent) (collected : List Nat) (rxb : RxBuffer)
      (c : List Nat) (b : RxBuffer) (rem : List FetchEvent),
      HidUart.readLoop rt destLen collected rxb events =
        some (ReadResult.ok c b rem) →
      ∃ tail, c = collected ++ tail := by
  intro events
  induction events with
  | nil =>
    intro collected rxb c b rem h
    by_cases hfull : destLen - collected.length = 0 <;>
      simp [HidUart.readLoop, hfull] at h <;>
      exact ⟨[], by simp [h.1.symm]⟩
  | cons e rest ih =>
    intro collected rxb c b rem h
    by_cases hfull : destLen - collected.length = 0
    · rw [readLoop_full rt destLen collected rxb (e :: rest) hfull] at h
      simp at h
      exact ⟨[], by simp [h.1.symm]⟩
    · cases e with
      | fail => simp [HidUart.readLoop, hfull] at h
      | nothing t =>
        by_cases ht : t > rt
        · simp [HidUart.readLoop, hfull, ht] at h
          exact ⟨[], by simp [h.1.symm]⟩
        · simp only [HidUart.readLoop, hfull, ht] at h
          exact ih collected rxb c b rem (by simpa using h)
      | frame buf t =>
        cases buf with
        | nil => simp [HidUart.readLoop, hfull] at h
        | cons b0 payload =>
          by_cases hcopy : min b0 (destLen - collected.length) ≤ payload.length
          · by_cases hover : min b0 (destLen - collected.length) < b0
            · by_cases hble : b0 ≤ payload.length
              · simp only [HidUart.readLoop, hfull, hcopy, hover, hble] at h
                simp [hfull, hcopy, hover, hble] at h
                rcases hw : rxb.write
                    ((payload.drop (min b0 (destLen - collected.length))).take
                      (b0 - min b0 (destLen - collected.length))) with _ | rxb'
                · rw [hw] at h
                  simp at h
                · rw [hw] at h
                  simp at h
                  exact ⟨payload.take (min b0 (destLen - collected.length)),
                    h.1.symm⟩
              · simp [HidUart.readLoop, hfull, hcopy, hover, hble] at h
            · by_cases ht : t > rt
              · simp [HidUart.readLoop, hfull, hcopy, hover, ht] at h
                exact ⟨payload.take (min b0 (destLen - collected.length)),
                  h.1.symm⟩
              · simp only [HidUart.readLoop, hfull, hcopy, hover, ht] at h
                obtain ⟨tail, htail⟩ :=
                  ih (collected ++
                      payload.take (min b0 (destLen - collected.length)))
                    rxb c b rem (by simpa using h)
                exact ⟨payload.take (min b0 (destLen - collected.length)) ++
                  tail, by simp [htail]⟩
          · simp [HidUart.readLoop, hfull, hcopy] at h

/-- C3: on every read call the leftover buffer is drained into the
destination before any transport fetch (the drained bytes stay at the
front of whatever the call returns), and whenever a fetched frame's
payload length exceeds the destination's remaining capacity, exactly the
remaining-capacity bytes are copied into the destination, the excess
payload bytes are stored in the leftover buffer (at offset 0, with
`len` the excess count), and the call returns immediately with the bytes
copied so far, leaving the rest of the trace unconsumed. -/
theorem claim_C3 (rt destLen : Nat) (rxb : RxBuffer)
    (events : List FetchEvent) (hwf : rxb.Wf) :
    (∃ drained rxb', rxb.read destLen = some (drained, rxb') ∧
      HidUart.read rt destLen rxb events =
        HidUart.readLoop rt destLen drained rxb' events ∧
      ∀ c b rem, HidUart.readLoop rt destLen drained rxb' events =
          some (ReadResult.ok c b rem) →
        ∃ tail, c = drained ++ tail) ∧
    (∀ collected b0 payload t rest,
      payload.length = 63 → b0 ≤ 63 →
      collected.length < destLen → destLen - collected.length < b0 →
      HidUart.readLoop rt destLen collected rxb
          (FetchEvent.frame (b0 :: payload) t :: rest) =
        some (ReadResult.ok
          (collected ++ payload.take (destLen - collected.length))
          { start := 0, len := b0 - (destLen - collected.length),
            data := (payload.drop (destLen - collected.length)).take
                (b0 - (destLen - collected.length)) ++
              rxb.data.drop (b0 - (destLen - collected.length)) }
          rest)) := by
  constructor
  · cases hr : rxb.read destLen with
    | none =>
      rw [RxBuffer.read_some rxb destLen hwf] at hr
      split at hr <;> simp at hr
    | some p =>
      obtain ⟨drained, rxb'⟩ := p
      exact ⟨drained, rxb', rfl, by simp [HidUart.read, hr],
        fun c b rem h => readLoop_extends rt destLen events drained rxb' c b rem h⟩
  · intro collected b0 payload t rest hpl hb0 hclt hover
    have hfull : ¬destLen - collected.length = 0 := by omega
    have hmin : min b0 (destLen - collected.length) =
        destLen - collected.length := by omega
    have hcopy : min b0 (destLen - collected.length) ≤ payload.length := by
      omega
    have hble : b0 ≤ payload.length := by omega
    have hsrclen :
        ((payload.drop (destLen - collected.length)).take
          (b0 - (destLen - collected.length))).length =
          b0 - (destLen - collected.length) := by
      simp
      omega
    have hsrcle :
        ((payload.drop (min b0 (destLen - collected.length))).take
          (b0 - min b0 (destLen - collected.length))).length ≤
          rxb.data.length := by
      simp [hwf.2]
      omega
    have hw := RxBuffer.write_some rxb
      ((payload.drop (min b0 (destLen - collected.length))).take
        (b0 - min b0 (destLen - collected.length))) hsrcle
    rw [hmin] at hw
    rw [if_neg (by rw [hsrclen]; omega)] at hw
    simp only [HidUart.readLoop, hfull, hcopy, hover, hble, hmin,
      if_false, if_true]
    simp [hmin, hw, hsrclen]
    omega

theorem claim_C3_witness :
    RxBuffer.new.Wf ∧
    HidUart.readLoop 0 4 [] RxBuffer.new
        [FetchEvent.frame (10 :: List.replicate 63 7) 0] =
      some (ReadResult.ok (List.replicate 4 7)
        { start := 0, len := 6,
          data := List.replicate 6 7 ++ List.replicate 58 0 } []) := by
  refine ⟨by decide, ?_⟩
  have h := (claim_C3 0 4 RxBuffer.new
      [FetchEvent.frame (10 :: List.replicate 63 7) 0] (by decide)).2
      [] 10 (List.replicate 63 7) 0 [] (by simp) (by decide)
      (by decide) (by decide)
  simpa [RxBuffer.new] using h
